import Mathlib

/-!
Verification of the contact-book hash table (`hash_table.py`).

The embedding is a direct translation of the Python source:

* `PyVal` models the dynamically typed arguments the Python functions
  receive (strings or integers suffice for every behavior at issue);
  `pyStr` is the Python `str(...)` coercion and `PyVal` equality is
  the Python `==` on these values (an `int` is never `==` a `str`).
* `Contact` mirrors the Python class: `__init__` stores `str(name)` and
  `str(number)`, but the update branch of `insert` assigns the raw
  `number`, so the `number` field is a `PyVal`.  The extra `cid` field
  models Python object identity (allocation order): the table state
  carries the next identity in `nextId` and `insert` stamps it on every
  freshly constructed `Contact`, so "the same object" is "the same
  `cid`".
* The singly linked chain of `Node`s of a bucket is a `List Node`; the head
  of the list is the chain head and the `next` pointer is the tail.
* Raising `ValueError` in `__init__` is an `Except String` result.
* `print_table` returns the list of printed lines.
-/

inductive PyVal where
  | str (s : String)
  | int (n : Int)
deriving DecidableEq, Repr

/-- Python `str(...)` on the values of `PyVal`. -/
def pyStr : PyVal → String
  | .str s => s
  | .int n => toString n

/-- Python `Contact.__init__` coerces both fields with `str`; the update
branch of `insert` later assigns a raw value to `number`, hence its type. -/
structure Contact where
  cid : Nat
  name : String
  number : PyVal
deriving DecidableEq, Repr

/-- Python `Contact.__str__`. -/
def Contact.display (c : Contact) : String :=
  c.name ++ ": " ++ pyStr c.number

/-- One chain node: `Node(key, value)`; the `next` pointer is the tail of
the enclosing `List Node`. The Python `insert` passes the raw `name` as
the key. -/
structure Node where
  key : PyVal
  value : Contact
deriving DecidableEq, Repr

/-- State of `HashTable`: `size`, the bucket array `data` (each slot the
chain of that bucket, head first), and the allocation counter `nextId`
modelling Python object identity of `Contact`s. -/
structure HashTable where
  size : Nat
  data : List (List Node)
  nextId : Nat
deriving DecidableEq, Repr

/-- The table `HashTable.__init__` builds for a positive `size`. -/
def emptyTable (n : Nat) : HashTable :=
  { size := n, data := List.replicate n [], nextId := 0 }

/-- Python `HashTable.__init__(size)`: `ValueError` when `size <= 0`,
otherwise `size` empty buckets. -/
def HashTable.construct (size : Int) : Except String HashTable :=
  if size ≤ 0 then .error "HashTable size must be positive."
  else .ok (emptyTable size.toNat)

/-- Construction with the default argument `size = 10`. -/
def HashTable.constructDefault : Except String HashTable :=
  HashTable.construct 10

/-- Python `sum(ord(c) for c in s)`. -/
def ordSum (s : String) : Nat :=
  s.data.foldl (fun a c => a + c.toNat) 0

/-- Python `hash_function`: sum of character codes of `str(key)`, mod `size`. -/
def HashTable.hash_function (t : HashTable) (key : PyVal) : Nat :=
  ordSum (pyStr key) % t.size

/-- The update loop of `insert`: walk the chain; at the first node whose
`key == name`, assign the raw `number` to its contact and stop.  `none`
when the walk falls off the end of the chain. -/
def updateChain (name number : PyVal) : List Node → Option (List Node)
  | [] => none
  | n :: rest =>
    if n.key = name then
      some ({ n with value := { n.value with number := number } } :: rest)
    else
      (updateChain name number rest).map (n :: ·)

/-- The loop of `search`: first node whose `key == name`, else `None`. -/
def searchChain (name : PyVal) : List Node → Option Contact
  | [] => none
  | n :: rest => if n.key = name then some n.value else searchChain name rest

/-- Python `insert(name, number)`: update in place if the key is found in
the chain of its bucket, otherwise prepend `Node(name, Contact(name, number))`. -/
def HashTable.insert (t : HashTable) (name number : PyVal) : HashTable :=
  let idx := t.hash_function name
  let chain := t.data.getD idx []
  match updateChain name number chain with
  | some chain' => { t with data := t.data.set idx chain' }
  | none =>
    let contact : Contact := { cid := t.nextId, name := pyStr name, number := .str (pyStr number) }
    { t with
      data := t.data.set idx ({ key := name, value := contact } :: chain),
      nextId := t.nextId + 1 }

/-- Python `search(name)`: walk the chain of bucket `hash_function(name)`. -/
def HashTable.search (t : HashTable) (name : PyVal) : Option Contact :=
  searchChain name (t.data.getD (t.hash_function name) [])

/-- The line `print_table` prints for bucket `i` with chain `chain`. -/
def chainLine (i : Nat) (chain : List Node) : String :=
  match chain with
  | [] => "Index " ++ toString i ++ ": Empty"
  | _ => "Index " ++ toString i ++ ": "
      ++ String.intercalate " " (chain.map (fun n => "- " ++ n.value.display))

/-- Python `print_table`: one line per bucket index, in ascending order. -/
def HashTable.print_table (t : HashTable) : List String :=
  (List.range t.size).map (fun i => chainLine i (t.data.getD i []))

/-- Every table `__init__` can produce, closed under `insert`: the bucket
array has exactly `size` slots and `size` is positive. -/
def HashTable.WF (t : HashTable) : Prop :=
  t.data.length = t.size ∧ 0 < t.size

instance (t : HashTable) : Decidable t.WF := by
  unfold HashTable.WF; infer_instance

/-- A table built by a sequence of `insert` calls on a fresh table. -/
def buildTable (cap : Nat) (ops : List (PyVal × PyVal)) : HashTable :=
  ops.foldl (fun t p => t.insert p.1 p.2) (emptyTable cap)

/-- No entry anywhere in the table carries the key `name`. -/
def noKey (name : PyVal) (t : HashTable) : Prop :=
  ∀ ch ∈ t.data, ∀ n ∈ ch, n.key ≠ name

/-- Number of entries with key `k` across all buckets of the table. -/
def countKey (t : HashTable) (k : PyVal) : Nat :=
  (t.data.map (fun ch => ch.countP (fun n => decide (n.key = k)))).sum

/-- The demonstration table of the collision test: capacity 10, insert
`"Amy"` then `"May"`. -/
def amyMayTable : HashTable :=
  ((emptyTable 10).insert (.str "Amy") (.str "111-222-3333")).insert
    (.str "May") (.str "222-333-1111")

/-- The demonstration tables of the duplicate-key test. -/
def rebeccaT1 : HashTable :=
  (emptyTable 10).insert (.str "Rebecca") (.str "111-555-0002")

def rebeccaTable : HashTable :=
  rebeccaT1.insert (.str "Rebecca") (.str "999-444-9999")

/-! ## Helper lemmas about buckets and chains -/

theorem getD_set_self {α : Type} (l : List α) (i : Nat) (a d : α) (h : i < l.length) :
    (l.set i a).getD i d = a := by
  simp [List.getD_eq_getElem?_getD, List.getElem?_set_self h]

theorem getD_set_ne {α : Type} (l : List α) (i j : Nat) (a d : α) (h : i ≠ j) :
    (l.set i a).getD j d = l.getD j d := by
  simp [List.getD_eq_getElem?_getD, List.getElem?_set_ne h]

theorem updateChain_eq_none_iff (name number : PyVal) (ch : List Node) :
    updateChain name number ch = none ↔ searchChain name ch = none := by
  induction ch with
  | nil => simp [updateChain, searchChain]
  | cons n rest ih =>
    by_cases h : n.key = name <;> simp [updateChain, searchChain, h, ih]

theorem searchChain_some_decomp (name : PyVal) (ch : List Node) (c : Contact)
    (h : searchChain name ch = some c) :
    ∃ pre post m, ch = pre ++ m :: post ∧ searchChain name pre = none ∧
      m.key = name ∧ m.value = c := by
  induction ch with
  | nil => simp [searchChain] at h
  | cons n rest ih =>
    by_cases hk : n.key = name
    · refine ⟨[], rest, n, by simp, by simp [searchChain], hk, ?_⟩
      simpa [searchChain, hk] using h
    · obtain ⟨pre, post, m, h1, h2, h3, h4⟩ := ih (by simpa [searchChain, hk] using h)
      exact ⟨n :: pre, post, m, by simp [h1], by simp [searchChain, hk, h2], h3, h4⟩

theorem searchChain_append (name : PyVal) (pre l : List Node)
    (h : searchChain name pre = none) :
    searchChain name (pre ++ l) = searchChain name l := by
  induction pre with
  | nil => simp
  | cons n rest ih =>
    by_cases hk : n.key = name
    · simp [searchChain, hk] at h
    · simp only [searchChain, hk, if_false] at h
      simp only [List.cons_append, searchChain, hk, if_false]
      exact ih h

theorem updateChain_append (name v : PyVal) (pre l : List Node)
    (h : searchChain name pre = none) :
    updateChain name v (pre ++ l) = (updateChain name v l).map (pre ++ ·) := by
  induction pre with
  | nil => simp
  | cons n rest ih =>
    by_cases hk : n.key = name
    · simp [searchChain, hk] at h
    · simp only [searchChain, hk, if_false] at h
      simp only [List.cons_append, updateChain, hk, if_false, List.append_eq, ih h,
        Option.map_map]
      cases updateChain name v l <;> rfl

theorem updateChain_cons_match (name v : PyVal) (m : Node) (post : List Node)
    (h : m.key = name) :
    updateChain name v (m :: post) =
      some ({ m with value := { m.value with number := v } } :: post) := by
  simp [updateChain, h]

theorem insert_size (t : HashTable) (name number : PyVal) :
    (t.insert name number).size = t.size := by
  simp only [HashTable.insert]
  split <;> rfl

theorem insert_hash (t : HashTable) (name number k : PyVal) :
    (t.insert name number).hash_function k = t.hash_function k := by
  unfold HashTable.hash_function
  rw [insert_size]

theorem insert_not_found (t : HashTable) (name number : PyVal)
    (h : searchChain name (t.data.getD (t.hash_function name) []) = none) :
    t.insert name number =
      { t with
        data := t.data.set (t.hash_function name)
          ({ key := name,
             value := { cid := t.nextId, name := pyStr name,
                        number := .str (pyStr number) } }
            :: t.data.getD (t.hash_function name) []),
        nextId := t.nextId + 1 } := by
  have h' := (updateChain_eq_none_iff name number _).mpr h
  simp only [HashTable.insert, h']

theorem insert_found (t : HashTable) (name number : PyVal) (ch' : List Node)
    (h : updateChain name number (t.data.getD (t.hash_function name) []) = some ch') :
    t.insert name number = { t with data := t.data.set (t.hash_function name) ch' } := by
  simp only [HashTable.insert, h]

theorem wf_hash_lt (t : HashTable) (k : PyVal) (h : t.WF) :
    t.hash_function k < t.data.length := by
  rw [h.1]
  exact Nat.mod_lt _ h.2

/-- Updating a chain that contains the key: explicit decomposition into the
untouched prefix, the first matching node (the `number` of its contact
overwritten, everything else kept), and the untouched suffix. -/
theorem updateChain_some_decomp (name v : PyVal) (ch : List Node) (c : Contact)
    (h : searchChain name ch = some c) :
    ∃ pre post m, ch = pre ++ m :: post ∧ searchChain name pre = none ∧
      m.key = name ∧ m.value = c ∧
      updateChain name v ch =
        some (pre ++ { m with value := { m.value with number := v } } :: post) := by
  obtain ⟨pre, post, m, h1, h2, h3, h4⟩ := searchChain_some_decomp name ch c h
  refine ⟨pre, post, m, h1, h2, h3, h4, ?_⟩
  rw [h1, updateChain_append name v pre _ h2, updateChain_cons_match name v m post h3]
  rfl

/-- The update loop never touches keys. -/
theorem updateChain_map_key (name v : PyVal) (ch ch' : List Node)
    (h : updateChain name v ch = some ch') :
    ch'.map Node.key = ch.map Node.key := by
  induction ch generalizing ch' with
  | nil => simp [updateChain] at h
  | cons n rest ih =>
    by_cases hk : n.key = name
    · simp only [updateChain, hk, if_true, Option.some.injEq] at h
      subst h
      simp [hk]
    · simp only [updateChain, hk, if_false, Option.map_eq_some'] at h
      obtain ⟨r', hr', rfl⟩ := h
      simp [ih r' hr']

/-- Searching after a successful update finds the same contact with only
its `number` overwritten. -/
theorem searchChain_after_update (name v : PyVal) (ch ch' : List Node) (c : Contact)
    (hs : searchChain name ch = some c)
    (hu : updateChain name v ch = some ch') :
    searchChain name ch' = some { c with number := v } := by
  obtain ⟨pre, post, m, h1, h2, h3, h4, h5⟩ := updateChain_some_decomp name v ch c hs
  rw [hu] at h5
  cases Option.some.injEq .. ▸ h5 with
  | refl =>
    rw [searchChain_append name pre _ h2]
    simp [searchChain, h3, h4]

/-- A second update with the same number is a no-op on the chain. -/
theorem updateChain_idem (name v : PyVal) (ch ch' : List Node)
    (h : updateChain name v ch = some ch') :
    updateChain name v ch' = some ch' := by
  induction ch generalizing ch' with
  | nil => simp [updateChain] at h
  | cons n rest ih =>
    by_cases hk : n.key = name
    · simp only [updateChain, hk, if_true, Option.some.injEq] at h
      subst h
      simp [updateChain, hk]
    · simp only [updateChain, hk, if_false, Option.map_eq_some'] at h
      obtain ⟨r', hr', rfl⟩ := h
      simp [updateChain, hk, ih r' hr']

/-! ## Claim theorems -/

/-- C1: with capacity 10, inserting `"Amy"` then `"May"` (both with
character-code sum 295) puts both in the bucket-5 chain with `"May"` at
the head, and the dump line for that bucket shows May before Amy; in
general, inserting a key absent from the chain of its bucket prepends a fresh
node whose tail (`next`) is the previous chain head. -/
theorem C1_head_insertion_collision :
    (amyMayTable.hash_function (.str "Amy") = amyMayTable.hash_function (.str "May") ∧
     (amyMayTable.data.getD 5 []).map Node.key = [.str "May", .str "Amy"] ∧
     amyMayTable.print_table.getD 5 "" =
       "Index 5: - May: 222-333-1111 - Amy: 111-222-3333") ∧
    ∀ (t : HashTable) (name number : PyVal), t.WF →
      searchChain name (t.data.getD (t.hash_function name) []) = none →
      (t.insert name number).data.getD (t.hash_function name) [] =
        { key := name,
          value := { cid := t.nextId, name := pyStr name,
                     number := .str (pyStr number) } }
          :: t.data.getD (t.hash_function name) [] := by
  refine ⟨⟨by decide, by decide, by decide⟩, ?_⟩
  intro t name number hwf h
  rw [insert_not_found t name number h]
  exact getD_set_self _ _ _ _ (wf_hash_lt t name hwf)

theorem C1_head_insertion_collision_witness :
    (emptyTable 10).WF ∧
    searchChain (.str "May")
      ((emptyTable 10).data.getD ((emptyTable 10).hash_function (.str "May")) []) = none ∧
    ((emptyTable 10).insert (.str "May") (.str "222-333-1111")).data.getD
        ((emptyTable 10).hash_function (.str "May")) [] =
      [{ key := .str "May",
         value := { cid := 0, name := "May", number := .str "222-333-1111" } }] :=
  ⟨by decide, by decide,
    C1_head_insertion_collision.2 (emptyTable 10) (.str "May") (.str "222-333-1111")
      (by decide) (by decide)⟩

/-- C4: the hash of a key is the character-code sum of the string form
of the key reduced modulo the capacity, it is deterministic, and on a table of
positive capacity its value lies in `[0, capacity)`. -/
theorem C4_hash_function_contract (t : HashTable) (k : PyVal) (h : 0 < t.size) :
    t.hash_function k = ordSum (pyStr k) % t.size ∧
    t.hash_function k < t.size ∧
    ∀ j : PyVal, j = k → t.hash_function j = t.hash_function k := by
  exact ⟨rfl, Nat.mod_lt _ h, fun j hj => by rw [hj]⟩

theorem C4_hash_function_contract_witness :
    0 < (emptyTable 10).size ∧
    ((emptyTable 10).hash_function (.str "Amy") =
        ordSum (pyStr (.str "Amy")) % (emptyTable 10).size ∧
     (emptyTable 10).hash_function (.str "Amy") < (emptyTable 10).size ∧
     ∀ j : PyVal, j = .str "Amy" →
        (emptyTable 10).hash_function j = (emptyTable 10).hash_function (.str "Amy")) :=
  ⟨by decide, C4_hash_function_contract (emptyTable 10) (.str "Amy") (by decide)⟩

/-! ## More helpers: replicate buckets, membership, search after insert -/

theorem getD_replicate_nil {α : Type} (c i : Nat) (d : α) :
    (List.replicate c d).getD i d = d := by
  rw [List.getD_eq_getElem?_getD, List.getElem?_replicate]
  split <;> rfl

theorem set_getD_self {α : Type} (l : List α) (i : Nat) (d : α) (h : i < l.length) :
    l.set i (l.getD i d) = l := by
  apply List.ext_getElem?
  intro n
  by_cases hn : i = n
  · subst hn
    rw [List.getElem?_set_self h, List.getD_eq_getElem _ _ h, List.getElem?_eq_getElem h]
  · rw [List.getElem?_set_ne hn]

theorem bucket_mem_or_nil (t : HashTable) (i : Nat) :
    t.data.getD i [] ∈ t.data ∨ t.data.getD i [] = [] := by
  by_cases h : i < t.data.length
  · left
    rw [List.getD_eq_getElem _ _ h]
    exact List.getElem_mem h
  · right
    rw [List.getD_eq_getElem?_getD, List.getElem?_eq_none (by omega)]
    rfl

theorem searchChain_eq_find (name : PyVal) (ch : List Node) :
    searchChain name ch =
      (ch.find? (fun n => decide (n.key = name))).map Node.value := by
  induction ch with
  | nil => rfl
  | cons n rest ih =>
    by_cases hk : n.key = name <;> simp [searchChain, List.find?_cons, hk, ih]

theorem searchChain_eq_none_of_all (name : PyVal) (ch : List Node)
    (h : ∀ n ∈ ch, n.key ≠ name) : searchChain name ch = none := by
  induction ch with
  | nil => rfl
  | cons n rest ih =>
    simp only [searchChain]
    rw [if_neg (h n (by simp))]
    exact ih fun m hm => h m (by simp [hm])

theorem search_of_noKey (t : HashTable) (name : PyVal) (h : noKey name t) :
    t.search name = none := by
  unfold HashTable.search
  apply searchChain_eq_none_of_all
  intro n hn
  rcases bucket_mem_or_nil t (t.hash_function name) with hm | hm
  · exact h _ hm n hn
  · rw [hm] at hn
    cases hn

theorem noKey_insert (t : HashTable) (name k v : PyVal) (hk : k ≠ name)
    (h : noKey name t) : noKey name (t.insert k v) := by
  intro ch hch n hn
  cases heq : updateChain k v (t.data.getD (t.hash_function k) []) with
  | some ch' =>
    rw [insert_found t k v ch' heq] at hch
    rcases List.mem_or_eq_of_mem_set hch with hin | rfl
    · exact h _ hin n hn
    · have hkey : n.key ∈ ch.map Node.key := List.mem_map_of_mem _ hn
      rw [updateChain_map_key k v _ ch heq] at hkey
      obtain ⟨m, hm, hmk⟩ := List.mem_map.mp hkey
      have hne : t.data.getD (t.hash_function k) [] ≠ [] := by
        intro hnil
        rw [hnil] at heq
        cases heq
      rcases bucket_mem_or_nil t (t.hash_function k) with hbm | hbm
      · rw [← hmk]
        exact h _ hbm m hm
      · exact absurd hbm hne
  | none =>
    have hsc := (updateChain_eq_none_iff k v _).mp heq
    rw [insert_not_found t k v hsc] at hch
    rcases List.mem_or_eq_of_mem_set hch with hin | rfl
    · exact h _ hin n hn
    · rcases List.mem_cons.mp hn with rfl | htail
      · exact hk
      · rcases bucket_mem_or_nil t (t.hash_function k) with hbm | hbm
        · exact h _ hbm n htail
        · rw [hbm] at htail
          cases htail

theorem noKey_emptyTable (name : PyVal) (c : Nat) : noKey name (emptyTable c) := by
  intro ch hch n hn
  rw [List.eq_of_mem_replicate hch] at hn
  cases hn

theorem noKey_foldl (name : PyVal) (ops : List (PyVal × PyVal)) :
    ∀ t : HashTable, noKey name t → (∀ p ∈ ops, p.1 ≠ name) →
      noKey name (ops.foldl (fun t p => t.insert p.1 p.2) t) := by
  induction ops with
  | nil => exact fun t h _ => h
  | cons p rest ih =>
    intro t h hops
    exact ih _ (noKey_insert t name p.1 p.2 (hops p (by simp)) h)
      (fun q hq => hops q (by simp [hq]))

/-- Searching right after a fresh (head) insert finds the new contact:
string name, string number, identity stamped from the counter. -/
theorem insert_search_new (t : HashTable) (name number : PyVal) (hwf : t.WF)
    (h : searchChain name (t.data.getD (t.hash_function name) []) = none) :
    (t.insert name number).search name =
      some { cid := t.nextId, name := pyStr name, number := .str (pyStr number) } := by
  unfold HashTable.search
  rw [insert_hash, insert_not_found t name number h]
  show searchChain name
      ((t.data.set (t.hash_function name)
        ({ key := name,
           value := { cid := t.nextId, name := pyStr name,
                      number := .str (pyStr number) } }
          :: t.data.getD (t.hash_function name) [])).getD (t.hash_function name) []) = _
  rw [getD_set_self _ _ _ _ (wf_hash_lt t name hwf)]
  simp [searchChain]

/-- Searching right after an updating insert finds the same contact with
only its `number` replaced by the raw argument. -/
theorem insert_search_update (t : HashTable) (name number : PyVal) (c : Contact)
    (hwf : t.WF) (h : t.search name = some c) :
    (t.insert name number).search name = some { c with number := number } := by
  unfold HashTable.search at h ⊢
  cases heq : updateChain name number (t.data.getD (t.hash_function name) []) with
  | none =>
    rw [(updateChain_eq_none_iff name number _).mp heq] at h
    cases h
  | some ch' =>
    rw [insert_hash, insert_found t name number ch' heq]
    show searchChain name
        ((t.data.set (t.hash_function name) ch').getD (t.hash_function name) []) = _
    rw [getD_set_self _ _ _ _ (wf_hash_lt t name hwf)]
    exact searchChain_after_update name number _ ch' c h heq

/-- C5: searching looks only at the chain of bucket `hash_function(name)`
and returns the first entry with a matching key (`find?` from the head);
a key never passed to `insert` while building a table is always absent,
and the result is the explicit `none` rather than a failure. -/
theorem C5_search_semantics (t : HashTable) (name : PyVal) :
    (t.search name =
      ((t.data.getD (t.hash_function name) []).find?
          (fun n => decide (n.key = name))).map Node.value) ∧
    (∀ (cap : Nat) (ops : List (PyVal × PyVal)),
      (∀ p ∈ ops, p.1 ≠ name) → (buildTable cap ops).search name = none) := by
  refine ⟨searchChain_eq_find name _, ?_⟩
  intro cap ops hops
  exact search_of_noKey _ name
    (noKey_foldl name ops (emptyTable cap) (noKey_emptyTable name cap) hops)

theorem C5_search_semantics_witness :
    (buildTable 10 [(.str "Amy", .str "111-222-3333"),
        (.str "May", .str "222-333-1111")]).search (.str "Chris") = none :=
  (C5_search_semantics (emptyTable 10) (.str "Chris")).2 10
    [(.str "Amy", .str "111-222-3333"), (.str "May", .str "222-333-1111")]
    (by decide)

/-- C6: construction fails with the `ValueError` condition exactly for
capacities `<= 0` (in particular `0` and `-1`), carrying no table;
any positive capacity yields the well-formed empty table of that size;
the default capacity is 10. -/
theorem C6_construction_guard :
    (HashTable.construct 0 = .error "HashTable size must be positive.") ∧
    (HashTable.construct (-1) = .error "HashTable size must be positive.") ∧
    (∀ c : Int, c ≤ 0 →
      HashTable.construct c = .error "HashTable size must be positive.") ∧
    (∀ c : Int, 0 < c →
      HashTable.construct c = .ok (emptyTable c.toNat) ∧ (emptyTable c.toNat).WF ∧
      (emptyTable c.toNat).size = c.toNat) ∧
    HashTable.constructDefault = HashTable.construct 10 := by
  refine ⟨rfl, rfl, ?_, ?_, rfl⟩
  · intro c hc
    unfold HashTable.construct
    rw [if_pos hc]
  · intro c hc
    refine ⟨?_, ?_, rfl⟩
    · unfold HashTable.construct
      rw [if_neg (by omega)]
    · unfold HashTable.WF
      refine ⟨by simp [emptyTable], ?_⟩
      show 0 < c.toNat
      omega

theorem C6_construction_guard_witness :
    ((-1 : Int) ≤ 0 ∧
      HashTable.construct (-1) = .error "HashTable size must be positive.") ∧
    ((0 : Int) < 7 ∧
      (HashTable.construct 7 = .ok (emptyTable (7 : Int).toNat) ∧
       (emptyTable (7 : Int).toNat).WF ∧
       (emptyTable (7 : Int).toNat).size = (7 : Int).toNat)) :=
  ⟨⟨by decide, C6_construction_guard.2.2.1 (-1) (by decide)⟩,
   ⟨by decide, C6_construction_guard.2.2.2.1 7 (by decide)⟩⟩

/-- C7: the dump has exactly `size` lines, index-ascending; an empty
bucket yields the line `Index i: Empty`, a non-empty bucket yields
`Index i: ` followed by the head-to-tail chain entries rendered
`- name: number` and joined by single spaces; a fresh table of any
capacity dumps all-`Empty` lines. -/
theorem C7_dump_format (t : HashTable) :
    t.print_table.length = t.size ∧
    (∀ i : Nat, i < t.size →
      t.print_table.getD i "" =
        if t.data.getD i [] = [] then "Index " ++ toString i ++ ": Empty"
        else "Index " ++ toString i ++ ": " ++
          String.intercalate " "
            ((t.data.getD i []).map (fun n => "- " ++ n.value.display))) ∧
    (∀ c : Nat, (emptyTable c).print_table =
      (List.range c).map (fun i => "Index " ++ toString i ++ ": Empty")) := by
  refine ⟨by simp [HashTable.print_table], ?_, ?_⟩
  · intro i hi
    have hlen : i < t.print_table.length := by simp [HashTable.print_table, hi]
    rw [List.getD_eq_getElem _ _ hlen]
    simp only [HashTable.print_table, List.getElem_map, List.getElem_range]
    cases hch : t.data.getD i [] with
    | nil => simp [chainLine]
    | cons n rest => simp [chainLine]
  · intro c
    unfold HashTable.print_table
    apply List.map_congr_left
    intro i hi
    show chainLine i ((List.replicate c ([] : List Node)).getD i []) = _
    rw [getD_replicate_nil]
    rfl

theorem C7_dump_format_witness :
    3 < amyMayTable.size ∧
    amyMayTable.print_table.getD 3 "" =
      (if amyMayTable.data.getD 3 [] = [] then "Index " ++ toString 3 ++ ": Empty"
       else "Index " ++ toString 3 ++ ": " ++
         String.intercalate " "
           ((amyMayTable.data.getD 3 []).map (fun n => "- " ++ n.value.display))) :=
  ⟨by decide, (C7_dump_format amyMayTable).2.1 3 (by decide)⟩

/-- C10: the empty string is a fully supported key: its character-code
sum is 0 so it hashes to bucket 0 on every table; inserting it into a
fresh table places its entry in bucket 0, and searching it returns the
stored contact. -/
theorem C10_empty_string_key (c : Nat) (s : String) (hc : 0 < c) :
    (∀ u : HashTable, u.hash_function (.str "") = 0) ∧
    ((emptyTable c).insert (.str "") (.str s)).data.getD 0 [] =
      [{ key := .str "", value := { cid := 0, name := "", number := .str s } }] ∧
    ((emptyTable c).insert (.str "") (.str s)).search (.str "") =
      some { cid := 0, name := "", number := .str s } := by
  have hz : ∀ u : HashTable, u.hash_function (.str "") = 0 := by
    intro u
    show ordSum "" % u.size = 0
    have h0 : ordSum "" = 0 := by decide
    rw [h0]
    exact Nat.zero_mod _
  have hidx : (emptyTable c).hash_function (.str "") = 0 := hz _
  have hbe0 : (emptyTable c).data.getD 0 [] = [] := getD_replicate_nil c 0 []
  have hnone : searchChain (.str "")
      ((emptyTable c).data.getD ((emptyTable c).hash_function (.str "")) []) = none := by
    rw [hidx, hbe0]
    rfl
  refine ⟨hz, ?_, ?_⟩
  · have hins := insert_not_found (emptyTable c) (.str "") (.str s) hnone
    rw [hidx, hbe0] at hins
    rw [hins]
    show ((List.replicate c ([] : List Node)).set 0 _).getD 0 [] = _
    rw [getD_set_self _ _ _ _ (by simp [hc])]
    rfl
  · exact insert_search_new (emptyTable c) (.str "") (.str s)
      ⟨by simp [emptyTable], hc⟩ hnone

theorem C10_empty_string_key_witness :
    0 < 10 ∧
    ((emptyTable 10).insert (.str "") (.str "555-0000")).data.getD 0 [] =
      [{ key := .str "", value := { cid := 0, name := "", number := .str "555-0000" } }] ∧
    ((emptyTable 10).insert (.str "") (.str "555-0000")).search (.str "") =
      some { cid := 0, name := "", number := .str "555-0000" } :=
  ⟨by decide, (C10_empty_string_key 10 "555-0000" (by decide)).2⟩

/-! ## Update law, coercion, idempotence, frame -/

theorem map_getD {α β : Type} (l : List α) (f : α → β) (i : Nat) (d : α)
    (h : i < l.length) : f (l.getD i d) = (l.map f).getD i (f d) := by
  rw [List.getD_eq_getElem _ _ h, List.getD_eq_getElem _ _ (by simp [h]),
    List.getElem_map]

theorem countKey_eq_keys (t : HashTable) (k : PyVal) :
    countKey t k =
      ((t.data.map (List.map Node.key)).map
        (fun ks => ks.countP (fun x => decide (x = k)))).sum := by
  unfold countKey
  rw [List.map_map]
  congr 1
  apply List.map_congr_left
  intro ch _
  show ch.countP (fun n => decide (n.key = k)) =
    (ch.map Node.key).countP (fun x => decide (x = k))
  rw [List.countP_map]
  rfl

/-- C2: inserting an already-present name overwrites the contact number
of the matched entry in place: the search result afterwards is the same
contact (same identity, same name) with the new number, no contact is
allocated, every bucket keeps exactly its previous keys in order, and
per-key entry counts are unchanged; in the Rebecca scenario the table
ends with exactly one Rebecca entry carrying the second number. -/
theorem C2_update_law (t : HashTable) (name number : PyVal) (c : Contact)
    (hwf : t.WF) (h : t.search name = some c) :
    (t.insert name number).search name = some { c with number := number } ∧
    (t.insert name number).nextId = t.nextId ∧
    (t.insert name number).data.map (List.map Node.key) =
      t.data.map (List.map Node.key) ∧
    (∀ k : PyVal, countKey (t.insert name number) k = countKey t k) ∧
    (rebeccaTable.search (.str "Rebecca") =
       some { cid := 0, name := "Rebecca", number := .str "999-444-9999" } ∧
     countKey rebeccaTable (.str "Rebecca") = 1) := by
  have hs : searchChain name (t.data.getD (t.hash_function name) []) = some c := h
  cases heq : updateChain name number (t.data.getD (t.hash_function name) []) with
  | none =>
    rw [(updateChain_eq_none_iff name number _).mp heq] at hs
    cases hs
  | some ch' =>
    have hins := insert_found t name number ch' heq
    have hkeys :
        (t.insert name number).data.map (List.map Node.key) =
          t.data.map (List.map Node.key) := by
      rw [hins]
      show (t.data.set (t.hash_function name) ch').map (List.map Node.key) =
        t.data.map (List.map Node.key)
      rw [List.map_set, updateChain_map_key name number _ ch' heq,
        map_getD t.data (List.map Node.key) (t.hash_function name) []
          (wf_hash_lt t name hwf)]
      exact set_getD_self _ _ _ (by simpa using wf_hash_lt t name hwf)
    refine ⟨insert_search_update t name number c hwf h, ?_, hkeys, ?_, by decide, by decide⟩
    · rw [hins]
    · intro k
      rw [countKey_eq_keys, countKey_eq_keys, hkeys]

theorem C2_update_law_witness :
    rebeccaT1.WF ∧
    rebeccaT1.search (.str "Rebecca") =
      some { cid := 0, name := "Rebecca", number := .str "111-555-0002" } ∧
    (rebeccaTable.search (.str "Rebecca") =
       some { cid := 0, name := "Rebecca", number := .str "999-444-9999" } ∧
     rebeccaTable.nextId = rebeccaT1.nextId ∧
     rebeccaTable.data.map (List.map Node.key) =
       rebeccaT1.data.map (List.map Node.key) ∧
     (∀ k : PyVal, countKey rebeccaTable k = countKey rebeccaT1 k) ∧
     (rebeccaTable.search (.str "Rebecca") =
        some { cid := 0, name := "Rebecca", number := .str "999-444-9999" } ∧
      countKey rebeccaTable (.str "Rebecca") = 1)) :=
  ⟨by decide, by decide,
    C2_update_law rebeccaT1 (.str "Rebecca") (.str "999-444-9999")
      { cid := 0, name := "Rebecca", number := .str "111-555-0002" }
      (by decide) (by decide)⟩

/-- C3 fails: only `hash_function` and the `Contact` constructor coerce.
The stored entry key is the raw `name` and `search` compares raw values,
so the key `1` (an int, bucket `hash("1")`) is not found when searched
as the string `"1"` even though both land in the same bucket; and the
update branch assigns the raw `number`, so after updating with the int
`5` the stored number is the int `5`, not a string. -/
theorem C3_coercion_counterexample :
    ((emptyTable 10).insert (.int 1) (.str "555-0000")).search (.str "1") = none ∧
    ((emptyTable 10).insert (.int 1) (.str "555-0000")).hash_function (.int 1) =
      ((emptyTable 10).insert (.int 1) (.str "555-0000")).hash_function (.str "1") ∧
    (((emptyTable 10).insert (.str "A") (.str "x")).insert (.str "A") (.int 5)).search
        (.str "A") = some { cid := 0, name := "A", number := .int 5 } := by
  refine ⟨by decide, by decide, by decide⟩

/-- C3 amended: the hash coerces its key to string form, so a key and
its string form land in the same bucket; `insert` coerces name and
number only when constructing the `Contact` of a fresh entry (the entry
key and all comparisons use the raw argument, and an update assigns the
raw number), so a fresh insert is found under the same raw key with
string name and number, while an update keeps the contact and stores
the number argument as given. -/
theorem C3_coercion_amended (t : HashTable) (name number : PyVal) (hwf : t.WF) :
    t.hash_function name = t.hash_function (.str (pyStr name)) ∧
    (searchChain name (t.data.getD (t.hash_function name) []) = none →
      (t.insert name number).search name =
        some { cid := t.nextId, name := pyStr name, number := .str (pyStr number) }) ∧
    (∀ c : Contact, t.search name = some c →
      (t.insert name number).search name = some { c with number := number }) :=
  ⟨rfl, fun h => insert_search_new t name number hwf h,
    fun c h => insert_search_update t name number c hwf h⟩

theorem C3_coercion_amended_witness :
    ((emptyTable 10).WF ∧
     searchChain (.int 1)
       ((emptyTable 10).data.getD ((emptyTable 10).hash_function (.int 1)) []) = none) ∧
    ((emptyTable 10).insert (.int 1) (.int 7)).search (.int 1) =
      some { cid := 0, name := "1", number := .str "7" } :=
  ⟨⟨by decide, by decide⟩,
    (C3_coercion_amended (emptyTable 10) (.int 1) (.int 7) (by decide)).2.1 (by decide)⟩

/-- C8 fails as stated: inserting the same pair twice is observably
different from inserting it once when the number is not a string.  The
first insert stores `str(5) = "5"` in the fresh contact; the second
takes the update branch and assigns the raw int `5`, so the search
result changes. -/
theorem C8_idempotence_counterexample :
    (((emptyTable 10).insert (.str "A") (.int 5)).insert (.str "A") (.int 5)).search
        (.str "A") ≠
      ((emptyTable 10).insert (.str "A") (.int 5)).search (.str "A") := by
  decide

/-- C8 amended: on every well-formed table, inserting the same
`(name, number)` pair twice yields exactly the same table state as
inserting it once, provided the number argument is in string form (the
coercion `str(number)` is then the identity, so the update branch of
the second insert rewrites the same value). -/
theorem C8_idempotent_insert (t : HashTable) (name : PyVal) (s : String)
    (hwf : t.WF) :
    (t.insert name (.str s)).insert name (.str s) = t.insert name (.str s) := by
  have hlt := wf_hash_lt t name hwf
  cases heq : updateChain name (.str s) (t.data.getD (t.hash_function name) []) with
  | some ch' =>
    have h1 := insert_found t name (.str s) ch' heq
    have hidx : (t.insert name (.str s)).hash_function name = t.hash_function name :=
      insert_hash t name (.str s) name
    have hb : (t.insert name (.str s)).data.getD (t.hash_function name) [] = ch' := by
      rw [h1]
      exact getD_set_self _ _ _ _ hlt
    have h2 : updateChain name (.str s)
        ((t.insert name (.str s)).data.getD
          ((t.insert name (.str s)).hash_function name) []) = some ch' := by
      rw [hidx, hb]
      exact updateChain_idem name (.str s) _ ch' heq
    have h3 := insert_found (t.insert name (.str s)) name (.str s) ch' h2
    rw [hidx] at h3
    rw [h3, h1]
    show ({ t with data := ((t.data.set (t.hash_function name) ch').set
        (t.hash_function name) ch') } : HashTable) =
      { t with data := t.data.set (t.hash_function name) ch' }
    rw [List.set_set]
  | none =>
    have hn := (updateChain_eq_none_iff name (.str s) _).mp heq
    have h1 := insert_not_found t name (.str s) hn
    have hidx : (t.insert name (.str s)).hash_function name = t.hash_function name :=
      insert_hash t name (.str s) name
    have hb : (t.insert name (.str s)).data.getD (t.hash_function name) [] =
        { key := name,
          value := { cid := t.nextId, name := pyStr name,
                     number := .str (pyStr (.str s)) } }
          :: t.data.getD (t.hash_function name) [] := by
      rw [h1]
      exact getD_set_self _ _ _ _ hlt
    have h2 : updateChain name (.str s)
        ((t.insert name (.str s)).data.getD
          ((t.insert name (.str s)).hash_function name) []) =
        some ({ key := name,
                value := { cid := t.nextId, name := pyStr name,
                           number := .str (pyStr (.str s)) } }
          :: t.data.getD (t.hash_function name) []) := by
      rw [hidx, hb]
      rw [updateChain_cons_match name (.str s) _ _ rfl]
      rfl
    have h3 := insert_found (t.insert name (.str s)) name (.str s) _ h2
    rw [hidx] at h3
    rw [h3, h1]
    show ({ t with
        data := ((t.data.set (t.hash_function name)
            ({ key := name,
               value := { cid := t.nextId, name := pyStr name,
                          number := .str (pyStr (.str s)) } }
              :: t.data.getD (t.hash_function name) [])).set (t.hash_function name)
            ({ key := name,
               value := { cid := t.nextId, name := pyStr name,
                          number := .str (pyStr (.str s)) } }
              :: t.data.getD (t.hash_function name) [])),
        nextId := t.nextId + 1 } : HashTable) =
      { t with
        data := (t.data.set (t.hash_function name)
            ({ key := name,
               value := { cid := t.nextId, name := pyStr name,
                          number := .str (pyStr (.str s)) } }
              :: t.data.getD (t.hash_function name) [])),
        nextId := t.nextId + 1 }
    rw [List.set_set]

theorem C8_idempotent_insert_witness :
    (emptyTable 10).WF ∧
    ((emptyTable 10).insert (.str "A") (.str "5")).insert (.str "A") (.str "5") =
      (emptyTable 10).insert (.str "A") (.str "5") :=
  ⟨by decide, C8_idempotent_insert (emptyTable 10) (.str "A") "5" (by decide)⟩

/-- C9: insertion never changes the capacity, leaves every bucket other
than `hash_function(name)` untouched, and inside the target bucket
either prepends one fresh entry ahead of the unchanged chain (new key)
or rewrites only the contact number of the first matching entry, keeping
every other entry and the order intact (update). -/
theorem C9_insert_frame (t : HashTable) (name number : PyVal) (hwf : t.WF) :
    (t.insert name number).size = t.size ∧
    (∀ j : Nat, j ≠ t.hash_function name →
      (t.insert name number).data.getD j [] = t.data.getD j []) ∧
    (searchChain name (t.data.getD (t.hash_function name) []) = none →
      (t.insert name number).data.getD (t.hash_function name) [] =
        { key := name,
          value := { cid := t.nextId, name := pyStr name,
                     number := .str (pyStr number) } }
          :: t.data.getD (t.hash_function name) []) ∧
    (∀ c : Contact,
      searchChain name (t.data.getD (t.hash_function name) []) = some c →
      ∃ pre post m,
        t.data.getD (t.hash_function name) [] = pre ++ m :: post ∧
        searchChain name pre = none ∧ m.key = name ∧ m.value = c ∧
        (t.insert name number).data.getD (t.hash_function name) [] =
          pre ++ { m with value := { m.value with number := number } } :: post) := by
  refine ⟨insert_size t name number, ?_, ?_, ?_⟩
  · intro j hj
    cases heq : updateChain name number (t.data.getD (t.hash_function name) []) with
    | some ch' =>
      rw [insert_found t name number ch' heq]
      exact getD_set_ne _ _ _ _ _ (Ne.symm hj)
    | none =>
      rw [insert_not_found t name number
          ((updateChain_eq_none_iff name number _).mp heq)]
      exact getD_set_ne _ _ _ _ _ (Ne.symm hj)
  · intro h
    rw [insert_not_found t name number h]
    exact getD_set_self _ _ _ _ (wf_hash_lt t name hwf)
  · intro c hc
    obtain ⟨pre, post, m, h1, h2, h3, h4, h5⟩ :=
      updateChain_some_decomp name number _ c hc
    refine ⟨pre, post, m, h1, h2, h3, h4, ?_⟩
    rw [insert_found t name number _ h5]
    exact getD_set_self _ _ _ _ (wf_hash_lt t name hwf)

theorem C9_insert_frame_witness :
    amyMayTable.WF ∧
    ((amyMayTable.insert (.str "John") (.str "909-876-1234")).size = amyMayTable.size ∧
     (∀ j : Nat, j ≠ amyMayTable.hash_function (.str "John") →
       (amyMayTable.insert (.str "John") (.str "909-876-1234")).data.getD j [] =
         amyMayTable.data.getD j []) ∧
     (searchChain (.str "John")
         (amyMayTable.data.getD (amyMayTable.hash_function (.str "John")) []) = none →
       (amyMayTable.insert (.str "John") (.str "909-876-1234")).data.getD
           (amyMayTable.hash_function (.str "John")) [] =
         { key := .str "John",
           value := { cid := amyMayTable.nextId, name := pyStr (.str "John"),
                      number := .str (pyStr (.str "909-876-1234")) } }
           :: amyMayTable.data.getD (amyMayTable.hash_function (.str "John")) []) ∧
     (∀ c : Contact,
       searchChain (.str "John")
         (amyMayTable.data.getD (amyMayTable.hash_function (.str "John")) []) = some c →
       ∃ pre post m,
         amyMayTable.data.getD (amyMayTable.hash_function (.str "John")) [] =
           pre ++ m :: post ∧
         searchChain (.str "John") pre = none ∧ m.key = .str "John" ∧ m.value = c ∧
         (amyMayTable.insert (.str "John") (.str "909-876-1234")).data.getD
             (amyMayTable.hash_function (.str "John")) [] =
           pre ++ { m with value := { m.value with number := .str "909-876-1234" } }
             :: post)) :=
  ⟨by decide,
    C9_insert_frame amyMayTable (.str "John") (.str "909-876-1234") (by decide)⟩
